import Mathlib

/-!
Verification of the transformer-rs GPU inference engine core.

This file gives a shallow embedding of the scheduling-relevant parts of the
repository and proves properties of them:

* the streaming layer-parameter window (`src/nvidia/transformer/src/parameters.rs`);
* the decode driver's request sorting, decode guard and row compaction
  (`src/transformer-nvidia/src/lib.rs`);
* the per-request KV-cache append performed by the attention step;
* the allocation streams of the transient tensors of a decode call;
* the precondition checks of the rotary-embedding kernel launch
  (`src/transformer-nvidia/src/kernel/rotary_embedding.rs`).

Machine integers in the source are `usize`/`udim` used far from overflow, so
they are embedded as `Nat`.  Fallible or panicking paths are embedded as
`Option`.  GPU tensors are embedded at the level the claims need: a cache is a
position-indexed family of rows, a packed activation is a list of rows, and
row contents stay abstract (a type parameter).
-/

namespace TransformerRs

variable {α : Type} {Id : Type}

/-- Device-resident parameters of one transformer layer, mirroring
`LayerParameter` in `src/nvidia/transformer/src/parameters.rs`.  Each of the
six tensor fields records the index of the host layer whose weight data the
device buffer currently holds.  `syncEvent` is the generation number of the
slot's CUDA event: destroying the previous event and recording a fresh one is
embedded as a generation bump.  `layer` is the `layer: usize` bookkeeping
field of the struct. -/
structure LayerParameter where
  inputLayernorm : Nat
  wQkv : Nat
  selfAttnOProj : Nat
  postAttentionLayernorm : Nat
  mlpGateUp : Nat
  mlpDown : Nat
  layer : Nat
  syncEvent : Nat
deriving Repr, DecidableEq, Inhabited

/-- Mirrors `LayerParameter::new` (parameters.rs lines 150-168): all six
tensors are uploaded from host layer `layer` and one event is recorded. -/
def LayerParameter.new (layer : Nat) : LayerParameter :=
  { inputLayernorm := layer, wQkv := layer, selfAttnOProj := layer,
    postAttentionLayernorm := layer, mlpGateUp := layer, mlpDown := layer,
    layer := layer, syncEvent := 0 }

/-- Mirrors `LayerParameter::load` (parameters.rs lines 170-194): a no-op when
the slot already records `layer`; otherwise all six tensors are overwritten
with host layer `layer` by asynchronous host-to-device copies, the prior
event is destroyed and a new one recorded (generation bump), and the recorded
layer is updated. -/
def LayerParameter.load (p : LayerParameter) (layer : Nat) : LayerParameter :=
  if p.layer = layer then p
  else
    { inputLayernorm := layer, wQkv := layer, selfAttnOProj := layer,
      postAttentionLayernorm := layer, mlpGateUp := layer, mlpDown := layer,
      layer := layer, syncEvent := p.syncEvent + 1 }

/-- Mirrors `LayersParameters` (parameters.rs lines 47-50): the ring of layer
slots plus the cursor `current`. -/
structure LayersParameters where
  layers : List LayerParameter
  current : Nat
deriving Repr, DecidableEq, Inhabited

/-- Mirrors `LayersParameters::new` (parameters.rs lines 53-60): slots for
layers `0 .. min(numHiddenLayers, loadLayers)` are created and preloaded,
cursor at 0. -/
def LayersParameters.new (loadLayers numHiddenLayers : Nat) : LayersParameters :=
  { layers := (List.range (min numHiddenLayers loadLayers)).map LayerParameter.new,
    current := 0 }

/-- Slot index targeted by `LayersParameters::load` (parameters.rs lines
64-65): `step = len - 1; i = (current + step) % len`. -/
def LayersParameters.loadSlotIndex (s : LayersParameters) : Nat :=
  (s.current + (s.layers.length - 1)) % s.layers.length

/-- Physical layer targeted by `LayersParameters::load` (parameters.rs line
66): `(layer + step) % num_hidden_layers`. -/
def LayersParameters.loadTargetLayer (s : LayersParameters) (layer numHiddenLayers : Nat) : Nat :=
  (layer + (s.layers.length - 1)) % numHiddenLayers

/-- Mirrors `LayersParameters::load` (parameters.rs lines 62-68): refill slot
`(current + len - 1) % len` with physical layer
`(layer + len - 1) % numHiddenLayers` via `LayerParameter.load`. -/
def LayersParameters.load (s : LayersParameters) (layer numHiddenLayers : Nat) :
    LayersParameters :=
  let i := s.loadSlotIndex
  let tgt := s.loadTargetLayer layer numHiddenLayers
  { s with layers := s.layers.set i ((s.layers.getD i default).load tgt) }

/-- Cursor advance performed by `LayersParameters::sync` (parameters.rs lines
71-73): `current ← (current + 1) % len`. -/
def LayersParameters.syncAdvance (s : LayersParameters) : LayersParameters :=
  { s with current := (s.current + 1) % s.layers.length }

/-- The assertion inside `LayersParameters::sync` (parameters.rs line 76):
`assert_eq!(params.layer, layer)` where `params` is the slot at the
pre-advance cursor. -/
def LayersParameters.syncAssert (s : LayersParameters) (layer : Nat) : Prop :=
  (s.layers.getD s.current default).layer = layer

instance (s : LayersParameters) (layer : Nat) : Decidable (s.syncAssert layer) :=
  inferInstanceAs (Decidable (_ = _))

/-- One step of the per-layer pipeline of `NvidiaTransformer::decode`
(lib.rs lines 86-90): `layers.load(layer, ...); layers.sync(layer, ...)`.
Across successive decode calls over a model of `numHiddenLayers` layers, the
layer requested at global step `n` is `n % numHiddenLayers`. -/
def windowStep (numHiddenLayers : Nat) (s : LayersParameters) (n : Nat) : LayersParameters :=
  (s.load (n % numHiddenLayers) numHiddenLayers).syncAdvance

/-- Window state after `n` pipeline steps, starting from a window of `w`
slots preloaded with layers `0..w` as `LayersParameters::new` builds it. -/
def windowRun (numHiddenLayers w : Nat) : Nat → LayersParameters
  | 0 => LayersParameters.new w numHiddenLayers
  | n + 1 => windowStep numHiddenLayers (windowRun numHiddenLayers w n) n

/-- Models `transformer::Request` from the spec (the transformer crate's
request type is not under `src/`; only its callers are).  The spec: a request
carries an identifier, a token vector of length `seq_len`, a starting
position `pos`, per-layer KV-cache views, and a boolean `decode`.  Only the
fields the decode driver's scheduling logic reads are kept; `seqLen` stands
for `tokens.len()`. -/
structure Request (Id : Type) where
  id : Id
  seqLen : Nat
  pos : Nat
  decode : Bool
deriving Repr, DecidableEq

/-- Models `Request::purely_decode` from the spec:
`purely_decode ≡ (seq_len == 1)`. -/
def Request.purelyDecode (r : Request Id) : Bool :=
  r.seqLen == 1

/-- Mirrors the sort at the start of `NvidiaTransformer::decode` (lib.rs line
66): `requests.sort_unstable_by_key(Request::purely_decode)`.
`sort_unstable_by_key` guarantees a permutation ordered by the `bool` key
(`false` before `true`); the relative order inside each group is left
unspecified by the unstable sort and is fixed here as the stable order. -/
def sortRequests (rs : List (Request Id)) : List (Request Id) :=
  rs.filter (fun r => !r.purelyDecode) ++ rs.filter Request.purelyDecode

/-- Mirrors the compaction loop of `NvidiaTransformer::move_decode` (lib.rs
lines 395-410): for each request after the first, `src += seq_len`, and if
the request decodes, `dst += 1` and row `src` is copied to row `dst` when
`dst < src`.  `rows` is the packed residual `x0` indexed by row; the result
is the final row buffer together with the final `src` and `dst`. -/
def moveDecodeLoop : (Nat → α) → Nat → Nat → List (Request Id) → (Nat → α) × Nat × Nat
  | rows, src, dst, [] => (rows, src, dst)
  | rows, src, dst, r :: rest =>
    let src1 := src + r.seqLen
    if r.decode then
      let dst1 := dst + 1
      let rows1 := if dst1 < src1 then Function.update rows dst1 (rows src1) else rows
      moveDecodeLoop rows1 src1 dst1 rest
    else
      moveDecodeLoop rows src1 dst rest

/-- Mirrors `NvidiaTransformer::move_decode` (lib.rs lines 383-413):
`split_first().unwrap()` panics on an empty request list (`none`); otherwise
`begin = head.seq_len - 1`, the compaction loop runs over the remaining
requests, and the rows `[begin, dst + 1)` of the compacted buffer are
returned. -/
def moveDecode (rows : Nat → α) : List (Request Id) → Option (List α)
  | [] => none
  | head :: others =>
    let b := head.seqLen - 1
    let out := moveDecodeLoop rows b b others
    some ((List.range (out.2.2 + 1 - b)).map fun m => out.1 (b + m))

/-- Models `Sample::sample` from the spec
(`src/transformer-nvidia/src/sample.rs` is not under `src/`).  The spec: "The
logits tensor and the ordered list of decode-eligible request ids are handed
to the sampler; it returns `Vec<(Id, utok)>`" — one `(id, token)` pair per
logits row, pairing row `j` with the `j`-th id of the list it is handed.
`tokOf` abstracts the `SampleArgs`-driven numeric choice of a token id from
one logits row. -/
def sampleModel (tokOf : α → Nat) (ids : List Id) (rowsList : List α) : List (Id × Nat) :=
  ids.zip (rowsList.map tokOf)

/-- Mirrors the scheduling skeleton of `NvidiaTransformer::decode` (lib.rs
lines 60-118).  After sorting, `requests[0]` is indexed — a panic (`none`) on
an empty batch.  If the first sorted request decodes, `move_decode` compacts
the rows of the decode-eligible requests and the sampler is handed the ids of
ALL sorted requests (line 112) together with the compacted logits rows;
otherwise the empty vector is returned.  `rows` abstracts the packed hidden
rows `x0` after the layer loop; `tokOf` abstracts sampling. -/
def decodeSched (tokOf : α → Nat) (rows : Nat → α) (requests : List (Request Id)) :
    Option (List (Id × Nat)) :=
  match sortRequests requests with
  | [] => none
  | r0 :: rest =>
    if r0.decode then
      (moveDecode rows (r0 :: rest)).map (sampleModel tokOf ((r0 :: rest).map Request.id))
    else
      some []

/-- Whether a `decode` call reaches the logits path (`model_norm` followed by
the `lm_head` projection, lib.rs lines 111-113 and 415-440): exactly when
`requests[0].decode()` holds after sorting.  `none` when the batch is empty
(`requests[0]` panics before the guard is evaluated). -/
def decodeComputesLogits (requests : List (Request Id)) : Option Bool :=
  match sortRequests requests with
  | [] => none
  | r0 :: _ => some r0.decode

/-- Attention-step view of one request at one layer: its starting position,
its sequence length, and this layer's K and V caches.  A cache is indexed by
absolute position; a row abstracts the `[NKVH, 1, DH]` slab of the device
cache tensor at that position (the attention code slices the cache only on
its middle, position axis). -/
structure AttnRequest (α : Type) where
  pos : Nat
  seqLen : Nat
  kCache : Nat → α
  vCache : Nat → α

/-- Models the reform kernel from the spec
(`src/transformer-nvidia/src/kernel/reform.rs` is not under `src/`): an
element-wise copy between tensors of identical logical shape.  For a
destination that is the cache slice `[all, from p take n, all]`, copying a
source of `n` rows writes source row `t` to cache position `p + t`. -/
def writeRows : (Nat → α) → Nat → List α → Nat → α
  | cache, _, [] => cache
  | cache, p, x :: rest => writeRows (Function.update cache p x) (p + 1) rest

/-- Mirrors the per-request cache writes of `NvidiaTransformer::attention`
(lib.rs lines 285-313): iterating the requests with a running token offset
`req` (incremented by each request's `seq_len`), the rows
`[req, req + seq_len)` of the packed rotary-embedded K (resp. V) are
reformed into the slice `[all, from pos take seq_len, all]` of the request's
K (resp. V) cache for this layer.  `ks`/`vs` are the packed K/V rows; row
`req + t` is the projection of token `t` of the request at offset `req`. -/
def attentionWrite (ks vs : List α) : List (AttnRequest α) → Nat → List (AttnRequest α)
  | [], _ => []
  | r :: rest, req =>
    { r with
      kCache := writeRows r.kCache r.pos ((ks.drop req).take r.seqLen),
      vCache := writeRows r.vCache r.pos ((vs.drop req).take r.seqLen) } ::
      attentionWrite ks vs rest (req + r.seqLen)

/-- Token offset of request `i` into the packed batch: the sum of the
sequence lengths of the requests before it (the running `req` of the
attention loop when it reaches request `i`). -/
def offsetBefore (reqs : List (AttnRequest α)) (i : Nat) : Nat :=
  ((reqs.take i).map AttnRequest.seqLen).sum

/-- Total number of packed tokens `NT = Σ seq_len` of an attention batch. -/
def totalSeqLen (reqs : List (AttnRequest α)) : Nat :=
  (reqs.map AttnRequest.seqLen).sum

/-- The two streams owned by the engine (spec section 5): the compute stream
created per decode call (lib.rs line 69) and the transfer stream stored in
the engine (lib.rs line 68). -/
inductive CudaStream where
  | compute
  | transfer
deriving Repr, DecidableEq

/-- The transient tensors of one `decode` call named by the spec:
`x0, x1, qkv, q_buf, att_buf, gate_up, pos, logits`. -/
inductive TransientTensor where
  | x0
  | x1
  | qkv
  | qBuf
  | attBuf
  | gateUp
  | pos
  | logits
deriving Repr, DecidableEq

/-- Stream on which each transient tensor is allocated, read off lib.rs:
`x0` via `token_embed(&requests, &compute)` (lines 72, 192); `x1` via
`tensor(.., &transfer)` (line 73); `qkv`, `q_buf`, `att_buf`, `gate_up` via
`LayerBuffer::alloc` with allocator closure `|size| Storage::new(size,
&transfer)` (lines 74-75; `LayerBuffer::alloc` of the transformer crate is
not under `src/` but every allocation it makes goes through that closure);
`pos` via `tensor(DataType::U32, &[nt], &transfer)` (line 79); `logits` via
`tensor(dt, .., compute)` inside `NvidiaTransformer::logits` (line 425). -/
def allocStream : TransientTensor → CudaStream
  | .x0 => .compute
  | .x1 => .transfer
  | .qkv => .transfer
  | .qBuf => .transfer
  | .attBuf => .transfer
  | .gateUp => .transfer
  | .pos => .transfer
  | .logits => .compute

/-- The tensor data types the rotary-embedding launch checks mention,
mirroring `tensor::DataType` variants used by the kernel bank. -/
inductive DataType where
  | F16
  | BF16
  | F32
  | U32
deriving Repr, DecidableEq

/-- Metadata of a tensor view: dtype, shape, and strides in elements,
mirroring the tensor crate's logical-view data. -/
structure TensorMeta where
  dataType : DataType
  shape : List Nat
  strides : List Nat
deriving Repr, DecidableEq

/-- Helper for `contiguousLen`: counts the run of axes, starting from the
last, whose stride equals the product of the inner extents.  The input is
the reversed `(extent, stride)` list; `expected` is the product of the
extents already consumed. -/
def contiguousLenGo : List (Nat × Nat) → Nat → Nat
  | [], _ => 0
  | (sh, st) :: rest, expected =>
    if st = expected then contiguousLenGo rest (expected * sh) + 1 else 0

/-- Models `Tensor::contiguous_len` from the spec (the tensor crate is not
under `src/`): a tensor is contiguous in its last `k` axes when the strides
along those axes equal the product of the inner shapes; `contiguousLen` is
the largest such `k`. -/
def contiguousLen (t : TensorMeta) : Nat :=
  contiguousLenGo (t.shape.zip t.strides).reverse 1

/-- Mirrors the precondition checks of `RotaryEmbedding::launch`
(rotary_embedding.rs lines 46-59): the shape must destructure as
`[n, nh, dh]` (else panic), then `assert!(t.contiguous_len() >= 2)`,
`assert_eq!(t.data_type(), F16)`, `assert_eq!(pos.data_type(), U32)`,
`assert_eq!(pos.shape(), &[n])`, `assert!(dh < block_size)`.  `none` models
a panic; `some (n, nh, dh)` a launch that passes every assertion. -/
def rotaryLaunch (blockSize : Nat) (t pos : TensorMeta) : Option (Nat × Nat × Nat) :=
  match t.shape with
  | [n, nh, dh] =>
    if 2 ≤ contiguousLen t ∧ t.dataType = DataType.F16 ∧ pos.dataType = DataType.U32 ∧
        pos.shape = [n] ∧ dh < blockSize then
      some (n, nh, dh)
    else
      none
  | _ => none

/-- Concrete batch refuting claim C5: a purely-decode request (`seqLen = 1`)
followed by a prefill-bearing request (`seqLen = 3`). -/
def c5Batch : List (Request Nat) :=
  [⟨0, 1, 5, true⟩, ⟨1, 3, 0, true⟩]

/-- Concrete batch refuting claim C2: a prefill-bearing request with
`decode = false` and a purely-decode request with `decode = true`. -/
def c2Batch : List (Request Nat) :=
  [⟨0, 2, 0, false⟩, ⟨1, 1, 7, true⟩]

/-- Concrete packed K rows for the C3 witness. -/
def c3Ks : List Nat := [10, 20, 30]

/-- Concrete packed V rows for the C3 witness. -/
def c3Vs : List Nat := [40, 50, 60]

/-- Concrete attention batch for the C3 witness: a prefill request of two
tokens at position 5 and a decode request of one token at position 1. -/
def c3Reqs : List (AttnRequest Nat) :=
  [⟨5, 2, fun _ => 0, fun _ => 0⟩, ⟨1, 1, fun _ => 1, fun _ => 1⟩]

/-- Default attention request for `getD` in the C3 witness. -/
def c3Dr : AttnRequest Nat := ⟨0, 0, fun _ => 2, fun _ => 2⟩

/-! ## List and arithmetic helper lemmas -/

theorem getD_set_eq (l : List α) (i j : Nat) (a d : α) :
    (l.set i a).getD j d = if i = j ∧ j < l.length then a else l.getD j d := by
  rw [List.getD_eq_getElem?_getD, List.getD_eq_getElem?_getD, List.getElem?_set]
  by_cases hij : i = j
  · subst hij
    by_cases hlen : i < l.length
    · simp [hlen]
    · rw [List.getElem?_eq_none (by omega)]
      simp [hlen]
  · simp [hij]

theorem rangeMap_getD (f : Nat → α) (n j : Nat) (d : α) :
    ((List.range n).map f).getD j d = if j < n then f j else d := by
  by_cases h : j < n
  · rw [List.getD_eq_getElem?_getD, List.getElem?_map, List.getElem?_range h]
    simp [h]
  · rw [List.getD_eq_getElem?_getD, List.getElem?_eq_none (by simpa using by omega)]
    simp [h]

theorem add_mod_ne_of_lt (n k w : Nat) (h1 : 0 < k) (h2 : k < w) :
    (n + k) % w ≠ n % w := by
  intro h
  have hmod : Nat.ModEq w n (n + k) := h.symm
  have hdvd : w ∣ k := by
    have := (Nat.modEq_iff_dvd' (Nat.le_add_right n k)).mp hmod
    simpa using this
  have := Nat.le_of_dvd h1 hdvd
  omega

/-! ## Window scheduling (claims C1 and C7) -/

theorem LayersParameters.load_current (s : LayersParameters) (layer L : Nat) :
    (s.load layer L).current = s.current := rfl

theorem LayersParameters.load_length (s : LayersParameters) (layer L : Nat) :
    (s.load layer L).layers.length = s.layers.length := by
  simp [LayersParameters.load]

theorem LayerParameter.layer_load (p : LayerParameter) (t : Nat) :
    (p.load t).layer = t := by
  unfold LayerParameter.load
  split
  · assumption
  · rfl

theorem windowRun_inv (L W : Nat) (hW : 1 ≤ W) (hWL : W ≤ L) (n : Nat) :
    ((windowRun L W n).load (n % L) L).layers.length = W ∧
    ((windowRun L W n).load (n % L) L).current = n % W ∧
    ∀ j, j < W →
      (((windowRun L W n).load (n % L) L).layers.getD ((n + j) % W) default).layer
        = (n + j) % L := by
  induction n with
  | zero =>
    have hmin : min L W = W := Nat.min_eq_right hWL
    have hrun0 : windowRun L W 0 = LayersParameters.new W L := rfl
    have hlayers : (LayersParameters.new W L).layers
        = (List.range W).map LayerParameter.new := by
      rw [LayersParameters.new, hmin]
    have hlen : (LayersParameters.new W L).layers.length = W := by
      rw [hlayers]
      simp
    have hidx : (LayersParameters.new W L).loadSlotIndex = W - 1 := by
      rw [LayersParameters.loadSlotIndex, hlen]
      show (0 + (W - 1)) % W = W - 1
      rw [Nat.zero_add]
      exact Nat.mod_eq_of_lt (by omega)
    have htgt : (LayersParameters.new W L).loadTargetLayer (0 % L) L = W - 1 := by
      rw [LayersParameters.loadTargetLayer, hlen, Nat.zero_mod, Nat.zero_add]
      exact Nat.mod_eq_of_lt (by omega)
    have hget : (LayersParameters.new W L).layers.getD (W - 1) default
        = LayerParameter.new (W - 1) := by
      rw [hlayers, rangeMap_getD, if_pos (by omega)]
    have hnoop : (LayerParameter.new (W - 1)).load (W - 1) = LayerParameter.new (W - 1) := by
      simp [LayerParameter.load, LayerParameter.new]
    rw [hrun0]
    refine ⟨?_, ?_, ?_⟩
    · rw [LayersParameters.load_length, hlen]
    · rw [LayersParameters.load_current]
      rfl
    · intro j hj
      rw [Nat.zero_add, Nat.mod_eq_of_lt hj, Nat.mod_eq_of_lt (by omega : j < L)]
      rw [LayersParameters.load]
      simp only [hidx, htgt, hget, hnoop]
      rw [getD_set_eq]
      by_cases hj1 : W - 1 = j
      · rw [if_pos ⟨hj1, by rw [hlen]; omega⟩]
        rw [LayerParameter.new, ← hj1]
      · rw [if_neg (by tauto)]
        rw [hlayers, rangeMap_getD, if_pos hj]
        rfl
  | succ n ih =>
    obtain ⟨hlen, hcur, hslots⟩ := ih
    set sPrev := (windowRun L W n).load (n % L) L with hsPrev
    have hrun : windowRun L W (n + 1) = sPrev.syncAdvance := by
      simp [windowRun, windowStep, hsPrev]
    have hAlen : (sPrev.syncAdvance).layers.length = W := by
      simp [LayersParameters.syncAdvance, hlen]
    have hAcur : (sPrev.syncAdvance).current = (n + 1) % W := by
      show (sPrev.current + 1) % sPrev.layers.length = (n + 1) % W
      rw [hcur, hlen, Nat.mod_add_mod]
    have hidx : (sPrev.syncAdvance).loadSlotIndex = n % W := by
      rw [LayersParameters.loadSlotIndex, hAlen, hAcur, Nat.mod_add_mod]
      rw [show n + 1 + (W - 1) = n + W by omega, Nat.add_mod_right]
    have htgt : (sPrev.syncAdvance).loadTargetLayer ((n + 1) % L) L = (n + W) % L := by
      rw [LayersParameters.loadTargetLayer, hAlen, Nat.mod_add_mod]
      rw [show n + 1 + (W - 1) = n + W by omega]
    rw [hrun]
    refine ⟨?_, ?_, ?_⟩
    · rw [LayersParameters.load_length, hAlen]
    · rw [LayersParameters.load_current, hAcur]
    · intro j hj
      rw [LayersParameters.load]
      simp only [hidx, htgt]
      rw [getD_set_eq]
      by_cases hj1 : j = W - 1
      · have hidx2 : (n + 1 + j) % W = n % W := by
          rw [hj1, show n + 1 + (W - 1) = n + W by omega, Nat.add_mod_right]
        have hcond : n % W = (n + 1 + j) % W ∧ (n + 1 + j) % W < (sPrev.syncAdvance).layers.length := by
          constructor
          · omega
          · rw [hAlen, hidx2]
            exact Nat.mod_lt _ (by omega)
        rw [if_pos hcond, LayerParameter.layer_load]
        rw [hj1, show n + 1 + (W - 1) = n + W by omega]
      · have hjlt : j < W - 1 := by omega
        have hne : (n + 1 + j) % W ≠ n % W := by
          rw [show n + 1 + j = n + (j + 1) by omega]
          exact add_mod_ne_of_lt n (j + 1) W (by omega) (by omega)
        rw [if_neg (by tauto)]
        have : (sPrev.syncAdvance).layers = sPrev.layers := rfl
        rw [this]
        have := hslots (j + 1) (by omega)
        rw [show n + (j + 1) = n + 1 + j by omega] at this
        exact this

/-- Claim C1: for every model with `L ≥ 1` hidden layers and window size
`1 ≤ W ≤ L`, with the window preloaded with layers `0..W` and every decode
call iterating `load(layer); sync(layer)` for layers `0..L-1`, the slot at
the cursor `current` always holds exactly the requested layer at the moment
of every `sync` — the assertion `assert_eq!(params.layer, layer)` never
fails, across any number of successive decode calls (global step `n`
requests layer `n % L`). -/
theorem c1_sync_assertion_never_fails (L W n : Nat) (hW : 1 ≤ W) (hWL : W ≤ L) :
    ((windowRun L W n).load (n % L) L).syncAssert (n % L) := by
  obtain ⟨hlen, hcur, hslots⟩ := windowRun_inv L W hW hWL n
  have h0 := hslots 0 (by omega)
  rw [LayersParameters.syncAssert, hcur]
  simpa using h0

/-- Witness for C1 at `L = 3`, `W = 2`, step `n = 5` (wraparound exercised
across two decode calls). -/
theorem c1_witness :
    (1 ≤ 2 ∧ 2 ≤ 3) ∧ ((windowRun 3 2 5).load (5 % 3) 3).syncAssert (5 % 3) :=
  ⟨by decide, c1_sync_assertion_never_fails 3 2 5 (by decide) (by decide)⟩

theorem set_getD_self (l : List α) (i : Nat) (d : α) (h : i < l.length) :
    l.set i (l.getD i d) = l := by
  apply List.ext_getElem?
  intro j
  rw [List.getElem?_set]
  by_cases hij : i = j
  · subst hij
    simp [h, List.getD_eq_getElem?_getD, List.getElem?_eq_getElem h]
  · simp [hij]

/-- Claim C7: a call `load(L_req)` on a window of `W ≥ 1` slots targets slot
`i = (current + W - 1) % W` and physical layer `tgt = (L_req + W - 1) % L`:
it leaves the cursor and every other slot untouched; it is a complete no-op
when slot `i` already records layer `tgt`; otherwise it overwrites all six
per-layer tensors of slot `i` with the weights of layer `tgt` (asynchronous
host-to-device copies), destroys the slot's prior event and records a new
one (generation bump), and updates the slot's recorded layer. -/
theorem c7_load_refills_staging_slot (s : LayersParameters) (lreq L : Nat)
    (hW : 1 ≤ s.layers.length) :
    (s.load lreq L).current = s.current ∧
    (s.load lreq L).layers.length = s.layers.length ∧
    (∀ j, j < s.layers.length →
      j ≠ (s.current + (s.layers.length - 1)) % s.layers.length →
      (s.load lreq L).layers.getD j default = s.layers.getD j default) ∧
    ((s.layers.getD ((s.current + (s.layers.length - 1)) % s.layers.length) default).layer
        = (lreq + (s.layers.length - 1)) % L →
      (s.load lreq L).layers = s.layers) ∧
    ((s.layers.getD ((s.current + (s.layers.length - 1)) % s.layers.length) default).layer
        ≠ (lreq + (s.layers.length - 1)) % L →
      (s.load lreq L).layers.getD
          ((s.current + (s.layers.length - 1)) % s.layers.length) default =
        { inputLayernorm := (lreq + (s.layers.length - 1)) % L,
          wQkv := (lreq + (s.layers.length - 1)) % L,
          selfAttnOProj := (lreq + (s.layers.length - 1)) % L,
          postAttentionLayernorm := (lreq + (s.layers.length - 1)) % L,
          mlpGateUp := (lreq + (s.layers.length - 1)) % L,
          mlpDown := (lreq + (s.layers.length - 1)) % L,
          layer := (lreq + (s.layers.length - 1)) % L,
          syncEvent :=
            (s.layers.getD ((s.current + (s.layers.length - 1)) % s.layers.length)
              default).syncEvent + 1 }) := by
  have hi : (s.current + (s.layers.length - 1)) % s.layers.length < s.layers.length :=
    Nat.mod_lt _ (by omega)
  have hload : (s.load lreq L).layers
      = s.layers.set ((s.current + (s.layers.length - 1)) % s.layers.length)
        ((s.layers.getD ((s.current + (s.layers.length - 1)) % s.layers.length) default).load
          ((lreq + (s.layers.length - 1)) % L)) := rfl
  refine ⟨rfl, s.load_length lreq L, ?_, ?_, ?_⟩
  · intro j hj hne
    rw [hload, getD_set_eq, if_neg (by tauto)]
  · intro heq
    rw [hload]
    rw [show ((s.layers.getD ((s.current + (s.layers.length - 1)) % s.layers.length)
          default).load ((lreq + (s.layers.length - 1)) % L))
        = s.layers.getD ((s.current + (s.layers.length - 1)) % s.layers.length) default by
      rw [LayerParameter.load, if_pos heq]]
    exact set_getD_self _ _ _ hi
  · intro hne
    rw [hload, getD_set_eq, if_pos ⟨rfl, hi⟩, LayerParameter.load, if_neg hne]

/-- Witness for C7: a two-slot window preloaded with layers 0 and 1, a
three-layer model, requested layer 1. -/
theorem c7_witness :
    (1 ≤ (LayersParameters.mk [LayerParameter.new 0, LayerParameter.new 1] 0).layers.length) ∧
    ((LayersParameters.mk [LayerParameter.new 0, LayerParameter.new 1] 0).load 1 3).current
      = (LayersParameters.mk [LayerParameter.new 0, LayerParameter.new 1] 0).current :=
  ⟨by decide,
    (c7_load_refills_staging_slot
      (LayersParameters.mk [LayerParameter.new 0, LayerParameter.new 1] 0) 1 3 (by decide)).1⟩

/-! ## Request sorting (claims C4 and C5) -/

theorem sortRequests_length (rs : List (Request Id)) :
    (sortRequests rs).length = rs.length := by
  rw [sortRequests, List.length_append]
  induction rs with
  | nil => rfl
  | cons r rest ih =>
    by_cases h : r.purelyDecode <;> simp [List.filter_cons, h] <;> omega

theorem mem_sortRequests {r : Request Id} {rs : List (Request Id)}
    (h : r ∈ sortRequests rs) : r ∈ rs := by
  rcases List.mem_append.mp h with h | h <;> exact (List.mem_filter.mp h).1

theorem sortRequests_getD_purelyDecode (rs : List (Request Id)) (dr : Request Id) (i : Nat)
    (hi : i < (sortRequests rs).length) :
    (((sortRequests rs).getD i dr).purelyDecode = true ↔
      (rs.filter fun r => !r.purelyDecode).length ≤ i) := by
  have hgetd : (sortRequests rs).getD i dr = (sortRequests rs)[i] := by
    rw [List.getD_eq_getElem?_getD, List.getElem?_eq_getElem hi]
    rfl
  rw [hgetd]
  by_cases h : i < (rs.filter fun r => !r.purelyDecode).length
  · have hA : (sortRequests rs)[i] = (rs.filter fun r => !r.purelyDecode)[i] :=
      List.getElem_append_left h
    have hmem : (rs.filter fun r => !r.purelyDecode)[i]
        ∈ rs.filter fun r => !r.purelyDecode := List.getElem_mem h
    have hpd := (List.mem_filter.mp hmem).2
    simp only [Bool.not_eq_true'] at hpd
    rw [hA, hpd]
    simp
    omega
  · have hle : (rs.filter fun r => !r.purelyDecode).length ≤ i := Nat.le_of_not_lt h
    have hiB : i - (rs.filter fun r => !r.purelyDecode).length
        < (rs.filter Request.purelyDecode).length := by
      have hlen := hi
      rw [sortRequests, List.length_append] at hlen
      omega
    have hB : (sortRequests rs)[i]
        = (rs.filter Request.purelyDecode)[i - (rs.filter fun r => !r.purelyDecode).length] :=
      List.getElem_append_right hle
    have hmem : (rs.filter Request.purelyDecode)[i -
        (rs.filter fun r => !r.purelyDecode).length] ∈ rs.filter Request.purelyDecode :=
      List.getElem_mem hiB
    have hpd := (List.mem_filter.mp hmem).2
    rw [hB, hpd]
    simp [hle]

/-- Claim C4: after the ascending sort by `purely_decode` at the start of
`decode`, every prefill-bearing request (`seq_len > 1`) precedes every
purely-decode request (`seq_len == 1`).  `dr` is the default returned by
`getD` for an out-of-range index (both indices are in range here). -/
theorem c4_prefill_precedes_pure_decode (dr : Request Id) (rs : List (Request Id)) (i j : Nat)
    (hi : i < (sortRequests rs).length) (hj : j < (sortRequests rs).length)
    (hpre : 1 < ((sortRequests rs).getD i dr).seqLen)
    (hdec : ((sortRequests rs).getD j dr).seqLen = 1) : i < j := by
  have hip : ¬ ((sortRequests rs).getD i dr).purelyDecode = true := by
    rw [Request.purelyDecode]
    simp only [beq_iff_eq]
    omega
  have hjp : ((sortRequests rs).getD j dr).purelyDecode = true := by
    rw [Request.purelyDecode, hdec]
    rfl
  have h1 := (sortRequests_getD_purelyDecode rs dr i hi).not.mp hip
  have h2 := (sortRequests_getD_purelyDecode rs dr j hj).mp hjp
  omega

/-- Witness for C4: a purely-decode request and a prefill-bearing request;
after sorting the prefill request sits at index 0, the pure-decode one at
index 1, and indeed `0 < 1`. -/
theorem c4_witness :
    1 < ((sortRequests [(⟨0, 1, 5, true⟩ : Request Nat), ⟨1, 3, 0, true⟩]).getD 0
          ⟨9, 9, 9, true⟩).seqLen ∧
    ((sortRequests [(⟨0, 1, 5, true⟩ : Request Nat), ⟨1, 3, 0, true⟩]).getD 1
          ⟨9, 9, 9, true⟩).seqLen = 1 ∧
    (0 : Nat) < 1 :=
  ⟨by decide, by decide,
    c4_prefill_precedes_pure_decode ⟨9, 9, 9, true⟩
      [(⟨0, 1, 5, true⟩ : Request Nat), ⟨1, 3, 0, true⟩] 0 1
      (by decide) (by decide) (by decide) (by decide)⟩

/-- Counterexample to claim C5 ("after the sort, purely-decode requests come
first"): in `c5Batch` there is exactly one purely-decode request, yet after
sorting the request at index 0 is the prefill-bearing one, not the
purely-decode one — the ascending sort by the boolean key `purely_decode`
puts `false` (prefill-bearing) first. -/
theorem c5_counterexample :
    (c5Batch.filter Request.purelyDecode).length = 1 ∧
    ((sortRequests c5Batch).getD 0 ⟨0, 0, 0, false⟩).purelyDecode = false := by
  decide

/-- Claim C5 amended: after the sort at the start of `decode`, purely-decode
requests come last — every purely-decode request is preceded by every
request that is not purely decode. -/
theorem c5_amended_pure_decode_last (dr : Request Id) (rs : List (Request Id)) (i j : Nat)
    (hi : i < (sortRequests rs).length) (hj : j < (sortRequests rs).length)
    (hpd : ((sortRequests rs).getD i dr).purelyDecode = true)
    (hnpd : ((sortRequests rs).getD j dr).purelyDecode = false) : j < i := by
  have h1 := (sortRequests_getD_purelyDecode rs dr i hi).mp hpd
  have h2 := (sortRequests_getD_purelyDecode rs dr j hj).not.mp
    (by rw [hnpd]; exact Bool.false_ne_true)
  omega

/-- Witness for the amended C5, on the batch of the counterexample. -/
theorem c5_witness :
    ((sortRequests c5Batch).getD 1 ⟨9, 9, 9, true⟩).purelyDecode = true ∧
    ((sortRequests c5Batch).getD 0 ⟨9, 9, 9, true⟩).purelyDecode = false ∧
    (0 : Nat) < 1 :=
  ⟨by decide, by decide,
    c5_amended_pure_decode_last ⟨9, 9, 9, true⟩ c5Batch 1 0
      (by decide) (by decide) (by decide) (by decide)⟩

/-! ## Decode scheduling (claims C2, C6 and C10) -/

theorem moveDecodeLoop_dst (rows : Nat → α) (src dst : Nat) (rs : List (Request Id)) :
    (moveDecodeLoop rows src dst rs).2.2 = dst + (rs.filter Request.decode).length := by
  induction rs generalizing rows src dst with
  | nil => rfl
  | cons r rest ih =>
    rw [moveDecodeLoop]
    by_cases h : r.decode
    · simp only [h, if_true, ih]
      rw [List.filter_cons, if_pos (by simpa using h)]
      simp
      omega
    · simp only [Bool.of_not_eq_true h, Bool.false_eq_true, if_false, ih]
      rw [List.filter_cons, if_neg (by simpa using h)]

theorem sortRequests_ne_nil {rs : List (Request Id)} (h : rs ≠ []) :
    sortRequests rs ≠ [] := by
  intro hnil
  apply h
  have := sortRequests_length rs
  rw [hnil] at this
  exact List.length_eq_zero.mp this.symm

/-- Counterexample to claim C2: `c2Batch` holds one request with
`decode == true`, but after sorting its first request is the prefill-bearing
one with `decode == false`, so the guard `requests[0].decode()` fails and
`decode` returns the empty vector — not one entry for the decode-eligible
request. -/
theorem c2_counterexample :
    decodeSched (fun _ : Nat => 0) (fun _ : Nat => 0) c2Batch = some [] ∧
    (c2Batch.filter Request.decode).length = 1 := by
  decide

/-- Claim C2 amended: whenever every request of a non-empty batch has
`decode == true` (so the post-sort guard `requests[0].decode()` holds),
`decode` returns exactly one `(Id, utok)` entry per request, in the order
the requests appear after sorting, and the returned length equals
`count(r.decode)`.  In general a batch whose first post-sort request has
`decode == false` yields the empty vector even if later requests decode
(see the counterexample). -/
theorem c2_amended_one_entry_per_decode (tokOf : α → Nat) (rows : Nat → α)
    (rs : List (Request Id)) (hne : rs ≠ []) (hall : ∀ r ∈ rs, r.decode = true) :
    (decodeSched tokOf rows rs).isSome = true ∧
    ((decodeSched tokOf rows rs).getD []).map Prod.fst = (sortRequests rs).map Request.id ∧
    ((decodeSched tokOf rows rs).getD []).length = (rs.filter Request.decode).length := by
  cases hs : sortRequests rs with
  | nil => exact absurd hs (sortRequests_ne_nil hne)
  | cons r0 rest =>
    have hr0 : r0.decode = true :=
      hall r0 (mem_sortRequests (hs ▸ List.mem_cons_self r0 rest))
    have hrest : ∀ r ∈ rest, r.decode = true := fun r hr =>
      hall r (mem_sortRequests (hs ▸ List.mem_cons_of_mem r0 hr))
    have hfilter : rest.filter Request.decode = rest := List.filter_eq_self.mpr hrest
    have hdst : (moveDecodeLoop rows (r0.seqLen - 1) (r0.seqLen - 1) rest).2.2
        = r0.seqLen - 1 + rest.length := by
      rw [moveDecodeLoop_dst, hfilter]
    have hmd : ∃ xrows : List α, moveDecode rows (r0 :: rest) = some xrows ∧
        xrows.length = rest.length + 1 := by
      refine ⟨_, rfl, ?_⟩
      simp only [hdst]
      rw [List.length_map, List.length_range]
      omega
    obtain ⟨xrows, hmdeq, hxlen⟩ := hmd
    have hsched : decodeSched tokOf rows rs
        = some (sampleModel tokOf ((r0 :: rest).map Request.id) xrows) := by
      rw [decodeSched, hs]
      show (if r0.decode = true then
          (moveDecode rows (r0 :: rest)).map (sampleModel tokOf ((r0 :: rest).map Request.id))
        else some []) = _
      rw [if_pos hr0, hmdeq]
      rfl
    have hids_len : ((r0 :: rest).map Request.id).length ≤ (xrows.map tokOf).length := by
      simp [hxlen]
    have hfst : (sampleModel tokOf ((r0 :: rest).map Request.id) xrows).map Prod.fst
        = (r0 :: rest).map Request.id := by
      rw [sampleModel]
      exact List.map_fst_zip _ _ hids_len
    have hall_len : (rs.filter Request.decode).length = rs.length := by
      rw [List.filter_eq_self.mpr hall]
    refine ⟨by rw [hsched]; rfl, ?_, ?_⟩
    · rw [hsched]
      show (sampleModel tokOf ((r0 :: rest).map Request.id) xrows).map Prod.fst = _
      exact hfst
    · rw [hsched]
      show (sampleModel tokOf ((r0 :: rest).map Request.id) xrows).length = _
      rw [sampleModel, List.length_zip, List.length_map, List.length_map, hxlen, hall_len]
      have hlen2 : (r0 :: rest).length = rs.length := by
        rw [← hs, sortRequests_length]
      simp only [List.length_cons] at hlen2 ⊢
      omega

/-- Witness for the amended C2: two all-decode requests (one prefill-bearing,
one purely decode). -/
theorem c2_witness :
    ([(⟨10, 2, 0, true⟩ : Request Nat), ⟨11, 1, 7, true⟩] ≠ []) ∧
    (decodeSched (fun v : Nat => v) (fun n : Nat => n)
        [(⟨10, 2, 0, true⟩ : Request Nat), ⟨11, 1, 7, true⟩]).isSome = true :=
  ⟨by decide,
    (c2_amended_one_entry_per_decode (fun v : Nat => v) (fun n : Nat => n)
      [(⟨10, 2, 0, true⟩ : Request Nat), ⟨11, 1, 7, true⟩]
      (by decide) (by decide)).1⟩

/-- Claim C6: for every non-empty batch in which no request has
`decode == true`, `decode` returns the empty vector and the logits path
(model_norm and lm_head) is not reached. -/
theorem c6_no_decode_returns_empty (tokOf : α → Nat) (rows : Nat → α)
    (rs : List (Request Id)) (hne : rs ≠ []) (hnd : ∀ r ∈ rs, r.decode = false) :
    decodeSched tokOf rows rs = some [] ∧ decodeComputesLogits rs = some false := by
  cases hs : sortRequests rs with
  | nil => exact absurd hs (sortRequests_ne_nil hne)
  | cons r0 rest =>
    have hr0 : r0.decode = false :=
      hnd r0 (mem_sortRequests (hs ▸ List.mem_cons_self r0 rest))
    constructor
    · rw [decodeSched, hs]
      show (if r0.decode = true then
          (moveDecode rows (r0 :: rest)).map (sampleModel tokOf ((r0 :: rest).map Request.id))
        else some []) = some []
      rw [if_neg (by simp [hr0])]
    · rw [decodeComputesLogits, hs]
      show some r0.decode = some false
      rw [hr0]

/-- Witness for C6: a single prefill-only request with `decode == false`. -/
theorem c6_witness :
    ([(⟨0, 2, 0, false⟩ : Request Nat)] ≠ []) ∧
    decodeSched (fun _ : Nat => 0) (fun _ : Nat => 0)
        [(⟨0, 2, 0, false⟩ : Request Nat)] = some [] ∧
    decodeComputesLogits [(⟨0, 2, 0, false⟩ : Request Nat)] = some false :=
  ⟨by decide,
    (c6_no_decode_returns_empty (fun _ : Nat => 0) (fun _ : Nat => 0)
      [(⟨0, 2, 0, false⟩ : Request Nat)] (by decide) (by decide)).1,
    (c6_no_decode_returns_empty (fun _ : Nat => 0) (fun _ : Nat => 0)
      [(⟨0, 2, 0, false⟩ : Request Nat)] (by decide) (by decide)).2⟩

/-- Claim C10: `decode` called with an empty request vector panics — the
implementation indexes `requests[0]` (and `move_decode` unwraps
`split_first`), modelled as `none` — and it returns a defined (`some`)
result exactly on non-empty batches. -/
theorem c10_empty_batch_panics (tokOf : α → Nat) (rows : Nat → α)
    (rs : List (Request Id)) :
    (decodeSched tokOf rows rs).isSome = true ↔ rs ≠ [] := by
  constructor
  · intro h hempty
    subst hempty
    simp [decodeSched, sortRequests] at h
  · intro hne
    cases hs : sortRequests rs with
    | nil => exact absurd hs (sortRequests_ne_nil hne)
    | cons r0 rest =>
      rw [decodeSched, hs]
      show (if r0.decode = true then
          (moveDecode rows (r0 :: rest)).map (sampleModel tokOf ((r0 :: rest).map Request.id))
        else some []).isSome = true
      by_cases hd : r0.decode
      · rw [if_pos hd]
        rfl
      · rw [if_neg (by simpa using hd)]
        rfl

/-! ## KV-cache append (claim C3) -/

theorem writeRows_lt (rows : List α) (cache : Nat → α) (p q : Nat) (h : q < p) :
    writeRows cache p rows q = cache q := by
  induction rows generalizing cache p with
  | nil => rfl
  | cons x rest ih =>
    rw [writeRows, ih _ (p + 1) (by omega)]
    exact Function.update_noteq (show q ≠ p by omega) x cache

theorem writeRows_ge (rows : List α) (cache : Nat → α) (p q : Nat)
    (h : p + rows.length ≤ q) :
    writeRows cache p rows q = cache q := by
  induction rows generalizing cache p with
  | nil => rfl
  | cons x rest ih =>
    rw [List.length_cons] at h
    rw [writeRows, ih _ (p + 1) (by omega)]
    exact Function.update_noteq (show q ≠ p by omega) x cache

theorem writeRows_get (rows : List α) (cache : Nat → α) (p t : Nat) (d : α)
    (h : t < rows.length) :
    writeRows cache p rows (p + t) = rows.getD t d := by
  induction rows generalizing cache p t with
  | nil => exact absurd h (by simp)
  | cons x rest ih =>
    cases t with
    | zero =>
      rw [writeRows, show p + 0 = p from rfl]
      rw [writeRows_lt rest _ (p + 1) p (by omega)]
      rw [Function.update_same, List.getD_cons_zero]
    | succ t' =>
      rw [writeRows, List.getD_cons_succ, show p + (t' + 1) = (p + 1) + t' by omega]
      exact ih _ (p + 1) t' (by simpa using h)

theorem drop_take_getD (l : List α) (off n t : Nat) (d : α) (ht : t < n) :
    ((l.drop off).take n).getD t d = l.getD (off + t) d := by
  rw [List.getD_eq_getElem?_getD, List.getD_eq_getElem?_getD, List.getElem?_take,
    if_pos ht, List.getElem?_drop]

theorem offsetBefore_cons_succ (r : AttnRequest α) (rest : List (AttnRequest α)) (i : Nat) :
    offsetBefore (r :: rest) (i + 1) = r.seqLen + offsetBefore rest i := by
  rw [offsetBefore, offsetBefore, List.take_succ_cons, List.map_cons, List.sum_cons]

theorem attentionWrite_getD (ks vs : List α) (dR : AttnRequest α) :
    ∀ (reqs : List (AttnRequest α)) (req i : Nat), i < reqs.length →
    (attentionWrite ks vs reqs req).getD i dR =
      { reqs.getD i dR with
        kCache := writeRows (reqs.getD i dR).kCache (reqs.getD i dR).pos
          ((ks.drop (req + offsetBefore reqs i)).take (reqs.getD i dR).seqLen),
        vCache := writeRows (reqs.getD i dR).vCache (reqs.getD i dR).pos
          ((vs.drop (req + offsetBefore reqs i)).take (reqs.getD i dR).seqLen) } := by
  intro reqs
  induction reqs with
  | nil => intro req i hi; exact absurd hi (by simp)
  | cons r rest ih =>
    intro req i hi
    cases i with
    | zero =>
      rw [attentionWrite, List.getD_cons_zero, List.getD_cons_zero]
      rw [show offsetBefore (r :: rest) 0 = 0 from rfl, Nat.add_zero]
    | succ i' =>
      rw [attentionWrite, List.getD_cons_succ, List.getD_cons_succ]
      rw [ih (req + r.seqLen) i' (by simpa using hi)]
      rw [offsetBefore_cons_succ, Nat.add_assoc]

theorem offsetBefore_add_seqLen_le (dR : AttnRequest α) :
    ∀ (reqs : List (AttnRequest α)) (i : Nat), i < reqs.length →
    offsetBefore reqs i + (reqs.getD i dR).seqLen ≤ totalSeqLen reqs := by
  intro reqs
  induction reqs with
  | nil => intro i hi; exact absurd hi (by simp)
  | cons r rest ih =>
    intro i hi
    cases i with
    | zero =>
      rw [show offsetBefore (r :: rest) 0 = 0 from rfl, List.getD_cons_zero,
        totalSeqLen, List.map_cons, List.sum_cons]
      omega
    | succ i' =>
      rw [offsetBefore_cons_succ, List.getD_cons_succ, totalSeqLen, List.map_cons,
        List.sum_cons]
      have := ih i' (by simpa using hi)
      rw [totalSeqLen] at this
      omega

/-- Claim C3: after the attention pass of one layer, for every request `r`
(the `i`-th of the batch, at packed offset `offsetBefore reqs i`) and every
`t < r.seqLen`, the K cache of `r` at position `r.pos + t` holds exactly the
packed rotary-embedded K row of token `t` of `r` (row `offsetBefore reqs i
+ t` of `ks`), and likewise for V; every cache position outside
`[r.pos, r.pos + r.seqLen)` is unchanged by the pass.  `d`/`dR` are `getD`
defaults (all indices are in range). -/
theorem c3_kv_cache_append (ks vs : List α) (dR : AttnRequest α) (d : α)
    (reqs : List (AttnRequest α)) (i : Nat) (hi : i < reqs.length)
    (hks : totalSeqLen reqs ≤ ks.length) (hvs : totalSeqLen reqs ≤ vs.length) :
    (∀ t, t < (reqs.getD i dR).seqLen →
      ((attentionWrite ks vs reqs 0).getD i dR).kCache ((reqs.getD i dR).pos + t)
          = ks.getD (offsetBefore reqs i + t) d ∧
      ((attentionWrite ks vs reqs 0).getD i dR).vCache ((reqs.getD i dR).pos + t)
          = vs.getD (offsetBefore reqs i + t) d) ∧
    (∀ q, q < (reqs.getD i dR).pos ∨ (reqs.getD i dR).pos + (reqs.getD i dR).seqLen ≤ q →
      ((attentionWrite ks vs reqs 0).getD i dR).kCache q = (reqs.getD i dR).kCache q ∧
      ((attentionWrite ks vs reqs 0).getD i dR).vCache q = (reqs.getD i dR).vCache q) := by
  have hoff := offsetBefore_add_seqLen_le dR reqs i hi
  have hget := attentionWrite_getD ks vs dR reqs 0 i hi
  rw [Nat.zero_add] at hget
  have hklen : ((ks.drop (offsetBefore reqs i)).take (reqs.getD i dR).seqLen).length
      = (reqs.getD i dR).seqLen := by
    rw [List.length_take, List.length_drop]
    omega
  have hvlen : ((vs.drop (offsetBefore reqs i)).take (reqs.getD i dR).seqLen).length
      = (reqs.getD i dR).seqLen := by
    rw [List.length_take, List.length_drop]
    omega
  constructor
  · intro t ht
    rw [hget]
    constructor
    · show writeRows (reqs.getD i dR).kCache (reqs.getD i dR).pos _ _ = _
      rw [writeRows_get _ _ _ _ d (by omega), drop_take_getD _ _ _ _ _ ht]
    · show writeRows (reqs.getD i dR).vCache (reqs.getD i dR).pos _ _ = _
      rw [writeRows_get _ _ _ _ d (by omega), drop_take_getD _ _ _ _ _ ht]
  · intro q hq
    rw [hget]
    rcases hq with hq | hq
    · exact ⟨writeRows_lt _ _ _ _ hq, writeRows_lt _ _ _ _ hq⟩
    · constructor
      · exact writeRows_ge _ _ _ _ (by omega)
      · exact writeRows_ge _ _ _ _ (by omega)

/-- Witness for C3: second request (position 1, one token, packed offset 2);
its K cache at position `1 + 0` receives packed K row `2 + 0`. -/
theorem c3_witness :
    (1 < c3Reqs.length ∧ totalSeqLen c3Reqs ≤ c3Ks.length ∧
      totalSeqLen c3Reqs ≤ c3Vs.length) ∧
    ((attentionWrite c3Ks c3Vs c3Reqs 0).getD 1 c3Dr).kCache ((c3Reqs.getD 1 c3Dr).pos + 0)
      = c3Ks.getD (offsetBefore c3Reqs 1 + 0) 99 :=
  ⟨⟨by decide, by decide, by decide⟩,
    ((c3_kv_cache_append c3Ks c3Vs c3Dr 99 c3Reqs 1 (by decide) (by decide) (by decide)).1
      0 (by decide)).1⟩

/-! ## Transient tensor allocation streams (claim C8) -/

/-- Counterexample to claim C8 ("every transient tensor is allocated on the
compute stream"): `x1` is allocated by `tensor(x0.data_type(), x0.shape(),
&transfer)` (lib.rs line 73) — on the transfer stream. -/
theorem c8_counterexample : allocStream TransientTensor.x1 ≠ CudaStream.compute := by
  decide

/-- Claim C8 amended: of the transient tensors of a decode call, exactly
`x0` and `logits` are allocated on the compute stream; `x1`, `qkv`, `q_buf`,
`att_buf`, `gate_up` and `pos` are allocated on the transfer stream (the
compute stream then waits on a transfer-stream event, lib.rs line 82,
before using them). -/
theorem c8_amended_alloc_streams (t : TransientTensor) :
    allocStream t = CudaStream.compute
      ↔ (t = TransientTensor.x0 ∨ t = TransientTensor.logits) := by
  cases t <;> decide

/-! ## Rotary-embedding launch preconditions (claim C9) -/

/-- Claim C9: for a tensor of shape `[n, nh, dh]` with strides
`[s0, s1, s2]`, the `RotaryEmbedding::launch` checks pass — no assertion
panic, the kernel is launched — exactly when the last two axes are
contiguous (`s2 = 1` and `s1 = dh`), the tensor dtype is F16, the position
tensor has dtype U32 and shape `[n]`, and `dh < block_size`. -/
theorem c9_rotary_launch_preconditions (bs n nh dh s0 s1 s2 : Nat) (t pos : TensorMeta)
    (hshape : t.shape = [n, nh, dh]) (hstrides : t.strides = [s0, s1, s2]) :
    ((rotaryLaunch bs t pos).isSome = true ↔
      (s2 = 1 ∧ s1 = dh ∧ t.dataType = DataType.F16 ∧ pos.dataType = DataType.U32 ∧
        pos.shape = [n] ∧ dh < bs)) := by
  have hcont : (2 ≤ contiguousLen t ↔ (s2 = 1 ∧ s1 = dh)) := by
    rw [contiguousLen, hshape, hstrides]
    show 2 ≤ contiguousLenGo [(dh, s2), (nh, s1), (n, s0)] 1 ↔ _
    simp only [contiguousLenGo, one_mul]
    split_ifs <;> omega
  have hiff : ((rotaryLaunch bs t pos).isSome = true ↔
      (2 ≤ contiguousLen t ∧ t.dataType = DataType.F16 ∧ pos.dataType = DataType.U32 ∧
        pos.shape = [n] ∧ dh < bs)) := by
    rw [rotaryLaunch, hshape]
    show (if 2 ≤ contiguousLen t ∧ t.dataType = DataType.F16 ∧
          pos.dataType = DataType.U32 ∧ pos.shape = [n] ∧ dh < bs
        then some (n, nh, dh) else none).isSome = true ↔ _
    split_ifs with hcond
    · simpa using hcond
    · simpa using hcond
  rw [hiff, hcont]
  tauto

/-- Witness for C9: an F16 tensor of shape `[4, 2, 4]` with row-major
strides `[8, 4, 1]`, a U32 position tensor of shape `[4]`, block size
1024 — all preconditions hold and the launch succeeds. -/
theorem c9_witness :
    (rotaryLaunch 1024 (TensorMeta.mk DataType.F16 [4, 2, 4] [8, 4, 1])
      (TensorMeta.mk DataType.U32 [4] [1])).isSome = true :=
  (c9_rotary_launch_preconditions 1024 4 2 4 8 4 1
    (TensorMeta.mk DataType.F16 [4, 2, 4] [8, 4, 1])
    (TensorMeta.mk DataType.U32 [4] [1]) rfl rfl).mpr (by decide)

end TransformerRs
